import Mathlib

/-!
Verification of the checker core of starttls-backend: the Status/Result
model (Status, SetStatus, Result and its reporting operations) and the
aggregation sink (AggregatedScan, HandleDomain, TotalMTASTS, PercentMTASTS
from checker/totals.go), shallowly embedded as pure Lean functions.
Go maps are modelled as association lists with overwrite-on-insert,
Go slices as Lists, and float64 arithmetic as exact rationals.
-/

/-- Status is the enum encoding the status of a check:
Success = 0, Warning = 1, Failure = 2, Error = 3 (Go int32 constants). -/
inductive Status where
  | Success
  | Warning
  | Failure
  | Error
deriving DecidableEq

/-- Numeric value of a Status constant, exactly the Go int32 values. -/
def Status.code : Status → Int
  | .Success => 0
  | .Warning => 1
  | .Failure => 2
  | .Error => 3

/-- SetStatus returns the result of combining oldStatus and newStatus:
newStatus when it is strictly greater (int32 comparison), else oldStatus. -/
def SetStatus (oldStatus newStatus : Status) : Status :=
  if newStatus.code > oldStatus.code then newStatus else oldStatus

/-- Result of a singular check: a name, a Status, the accumulated messages
and a map (modelled as an association list) from sub-check name to child. -/
inductive Result where
  | mk (Name : String) (Status : Status) (Messages : List String)
      (Checks : List (String × Result))

/-- Projection: the Name field of a Result. -/
def Result.Name : Result → String
  | .mk n _ _ _ => n

/-- Projection: the Status field of a Result. -/
def Result.Status : Result → Status
  | .mk _ s _ _ => s

/-- Projection: the Messages field of a Result. -/
def Result.Messages : Result → List String
  | .mk _ _ ms _ => ms

/-- Projection: the Checks field of a Result. -/
def Result.Checks : Result → List (String × Result)
  | .mk _ _ _ cs => cs

/-- Go map lookup checks[q] on the association-list model of Checks. -/
def lookupCheck : List (String × Result) → String → Option Result
  | [], _ => none
  | (k, v) :: rest, q => if q = k then some v else lookupCheck rest q

/-- Go map assignment checks[k] = v on the association-list model:
overwrites the binding of k when present, otherwise adds it. -/
def insertCheck : List (String × Result) → String → Result → List (String × Result)
  | [], k, v => [(k, v)]
  | (k₁, v₁) :: rest, k, v =>
      if k₁ = k then (k, v) :: rest else (k₁, v₁) :: insertCheck rest k v

/-- MakeResult constructs a base result: Success status, no messages,
no checks. -/
def MakeResult (name : String) : Result :=
  .mk name .Success [] []

/-- Result.Error: combines the status with Error and appends the message
prefixed with Error-colon. The fmt.Sprintf formatting is modelled by
taking the already-formatted message as the argument. -/
def Result.Error (r : Result) (msg : String) : Result :=
  match r with
  | .mk n s ms cs => .mk n (SetStatus s .Error) (ms ++ ["Error: " ++ msg]) cs

/-- Result.Failure: combines the status with Failure and appends the
message prefixed with Failure-colon. -/
def Result.Failure (r : Result) (msg : String) : Result :=
  match r with
  | .mk n s ms cs => .mk n (SetStatus s .Failure) (ms ++ ["Failure: " ++ msg]) cs

/-- Result.Warning: combines the status with Warning and appends the
message prefixed with Warning-colon. -/
def Result.Warning (r : Result) (msg : String) : Result :=
  match r with
  | .mk n s ms cs => .mk n (SetStatus s .Warning) (ms ++ ["Warning: " ++ msg]) cs

/-- Result.Success: combines the status with Success; appends no message. -/
def Result.Success (r : Result) : Result :=
  match r with
  | .mk n s ms cs => .mk n (SetStatus s .Success) ms cs

/-- Result.subcheckSucceeded: whether the named sub-check is present and
has Success status; false when absent. -/
def Result.subcheckSucceeded (r : Result) (checkName : String) : Bool :=
  match lookupCheck r.Checks checkName with
  | some result => result.Status = Status.Success
  | none => false

/-- Result.addCheck: stores the child under its Name (overwriting any
prior child of that name) and combines the status of the parent with the
status of the child. -/
def Result.addCheck (r : Result) (checkResult : Result) : Result :=
  match r with
  | .mk n s ms cs =>
      .mk n (SetStatus s checkResult.Status) ms
        (insertCheck cs checkResult.Name checkResult)

/-- C1: SetStatus (the combine primitive) returns the new status exactly
when it is strictly more severe than the old one, is the maximum under the
severity order Success < Warning < Failure < Error, and is associative and
idempotent; in particular combine Success Warning = Warning,
combine Failure Success = Failure and combine Error Error = Error. -/
theorem setStatus_is_severity_max : ∀ (o n c : Status),
    SetStatus o n = (if n.code > o.code then n else o)
    ∧ (SetStatus o n = o ∨ SetStatus o n = n)
    ∧ (SetStatus o n).code = max o.code n.code
    ∧ SetStatus (SetStatus o n) c = SetStatus o (SetStatus n c)
    ∧ SetStatus o o = o
    ∧ SetStatus Status.Success Status.Warning = Status.Warning
    ∧ SetStatus Status.Failure Status.Success = Status.Failure
    ∧ SetStatus Status.Error Status.Error = Status.Error := by
  intro o n c
  cases o <;> cases n <;> cases c <;> decide

/-- One status-reporting operation or child attachment applied to a
Result: the four reporting methods and addCheck. -/
inductive Op where
  | err (msg : String)
  | failr (msg : String)
  | warn (msg : String)
  | ok
  | attach (child : Result)

/-- Apply one operation to a Result. -/
def applyOp (r : Result) : Op → Result
  | .err m => r.Error m
  | .failr m => r.Failure m
  | .warn m => r.Warning m
  | .ok => r.Success
  | .attach c => r.addCheck c

/-- Apply a sequence of operations left to right. -/
def applyOps (r : Result) (ops : List Op) : Result :=
  ops.foldl applyOp r

/-- The severity level an operation feeds into SetStatus: the level a
reporting method reports, or the status of the attached child. -/
def opLevel : Op → Status
  | .err _ => .Error
  | .failr _ => .Failure
  | .warn _ => .Warning
  | .ok => .Success
  | .attach c => c.Status

/-- The levels of the directly-reported operations only (attachments
excluded), in order. -/
def reportLevels : List Op → List Status
  | [] => []
  | .attach _ :: rest => reportLevels rest
  | op :: rest => opLevel op :: reportLevels rest

/-- The invariant exactly as the spec states it, for a Result built from
MakeResult by a sequence of operations: the Status field equals the
maximum severity among the levels directly reported on the Result and the
statuses of the children currently present in Checks. -/
def specStatusInvariant (name : String) (ops : List Op) : Prop :=
  (applyOps (MakeResult name) ops).Status
    = (((applyOps (MakeResult name) ops).Checks.map (fun p => p.2.Status))
        ++ reportLevels ops).foldl SetStatus Status.Success

theorem applyOp_status (r : Result) (op : Op) :
    (applyOp r op).Status = SetStatus r.Status (opLevel op) := by
  cases r
  cases op <;> rfl

theorem applyOps_status (ops : List Op) (r : Result) :
    (applyOps r ops).Status = (ops.map opLevel).foldl SetStatus r.Status := by
  induction ops generalizing r with
  | nil => rfl
  | cons op rest ih =>
      simp only [applyOps, List.foldl_cons, List.map_cons] at *
      rw [ih, applyOp_status]

theorem foldl_setStatus_code (l : List Status) (s : Status) :
    (l.foldl SetStatus s).code = (l.map Status.code).foldl max s.code := by
  induction l generalizing s with
  | nil => rfl
  | cons a rest ih =>
      simp only [List.foldl_cons, List.map_cons]
      rw [ih]
      have h : (SetStatus s a).code = max s.code a.code := by
        cases s <;> cases a <;> decide
      rw [h]

/-- C2 counterexample: attach a child named x with status Error, then
overwrite it by attaching a child named x with status Success. The
Result's Status is Error, but the maximum severity over the levels
directly reported and the children currently present in Checks is
Success, so the claimed invariant fails after an overwrite. -/
theorem specStatusInvariant_fails_on_overwrite :
    ¬ specStatusInvariant "parent"
        [Op.attach (Result.mk "x" Status.Error [] []),
         Op.attach (Result.mk "x" Status.Success [] [])] := by
  unfold specStatusInvariant
  decide

/-- C2 amended: for every Result built from a fresh MakeResult by any
sequence of status-reporting operations and child attachments, the Status
field equals the maximum severity among all levels directly reported on it
and the Status of every child AT THE TIME IT WAS ATTACHED — overwritten
children keep contributing, so the status is the SetStatus-fold (the
running maximum) of the levels of all operations ever applied, not of the
children currently present. -/
theorem status_is_max_of_applied_levels : ∀ (name : String) (ops : List Op),
    (applyOps (MakeResult name) ops).Status
      = (ops.map opLevel).foldl SetStatus Status.Success
    ∧ ((applyOps (MakeResult name) ops).Status).code
      = (ops.map (fun op => (opLevel op).code)).foldl max (0 : Int) := by
  intro name ops
  constructor
  · rw [applyOps_status]
    rfl
  · rw [applyOps_status]
    have h := foldl_setStatus_code (ops.map opLevel) (MakeResult name).Status
    simp only [List.map_map] at h
    exact h

theorem lookupCheck_insertCheck (cs : List (String × Result)) (k : String)
    (v : Result) (q : String) :
    lookupCheck (insertCheck cs k v) q
      = if q = k then some v else lookupCheck cs q := by
  induction cs with
  | nil => simp [insertCheck, lookupCheck]
  | cons p rest ih =>
      obtain ⟨k₁, v₁⟩ := p
      by_cases hk : k₁ = k
      · subst hk
        simp only [insertCheck, if_pos rfl, lookupCheck]
        by_cases hq : q = k₁ <;> simp [hq]
      · by_cases hq : q = k₁
        · subst hq
          simp [insertCheck, hk, lookupCheck, Ne.symm hk]
        · simp [insertCheck, hk, lookupCheck, hq, ih]

/-- C5: addCheck stores the child under its Name in the parent's Checks
map, overwriting any prior child of that name, and combines the parent's
Status with the child's; in particular attaching an Error child to a
Success parent makes the parent Error, and then overwriting that child
with a Success child of the same name leaves the parent Error. -/
theorem addCheck_overwrites_and_escalates : ∀ (parent child : Result) (q : String),
    lookupCheck (parent.addCheck child).Checks q
      = (if q = child.Name then some child else lookupCheck parent.Checks q)
    ∧ (parent.addCheck child).Status = SetStatus parent.Status child.Status
    ∧ ((MakeResult "p").addCheck (Result.mk "c" Status.Error [] [])).Status
      = Status.Error
    ∧ (((MakeResult "p").addCheck (Result.mk "c" Status.Error [] [])).addCheck
        (Result.mk "c" Status.Success [] [])).Status = Status.Error := by
  intro parent child q
  refine ⟨?_, ?_, by decide, by decide⟩
  · cases parent
    simp only [Result.addCheck, Result.Checks]
    exact lookupCheck_insertCheck _ _ _ _
  · cases parent
    rfl

/-- C6 counterexample: Result.Success appends no message, so after a
Success report on a fresh Result the Messages sequence has NOT grown by
one entry — the claim that all four reporting operations append exactly
one message is false for Success. -/
theorem success_appends_no_message :
    ¬ ((MakeResult "r").Success.Messages.length
        = (MakeResult "r").Messages.length + 1) := by
  decide

/-- C6 amended: Error, Failure and Warning each append exactly one
message (prefixed Error-colon, Failure-colon, Warning-colon) to Messages,
leaving every existing entry unchanged, and update Status via SetStatus
with the corresponding level; Success appends NO message, leaving
Messages entirely unchanged, and updates Status via
SetStatus with level Success. -/
theorem report_ops_messages_and_status : ∀ (r : Result) (msg : String),
    (r.Error msg).Messages = r.Messages ++ ["Error: " ++ msg]
    ∧ (r.Error msg).Status = SetStatus r.Status Status.Error
    ∧ (r.Failure msg).Messages = r.Messages ++ ["Failure: " ++ msg]
    ∧ (r.Failure msg).Status = SetStatus r.Status Status.Failure
    ∧ (r.Warning msg).Messages = r.Messages ++ ["Warning: " ++ msg]
    ∧ (r.Warning msg).Status = SetStatus r.Status Status.Warning
    ∧ r.Success.Messages = r.Messages
    ∧ r.Success.Status = SetStatus r.Status Status.Success := by
  intro r msg
  cases r
  exact ⟨rfl, rfl, rfl, rfl, rfl, rfl, rfl, rfl⟩

/-- C8: subcheckSucceeded returns true exactly when a child of the given
name is currently present in Checks with Status Success; it returns false
(not an error) both when the name was never attached and when it was
attached with a non-Success status. -/
theorem subcheckSucceeded_iff : ∀ (p : Result) (x : String),
    (p.subcheckSucceeded x = true
      ↔ ∃ c, lookupCheck p.Checks x = some c ∧ c.Status = Status.Success)
    ∧ (MakeResult "p").subcheckSucceeded "x" = false
    ∧ ((MakeResult "p").addCheck
        (Result.mk "x" Status.Warning [] [])).subcheckSucceeded "x" = false
    ∧ ((MakeResult "p").addCheck
        (Result.mk "x" Status.Success [] [])).subcheckSucceeded "x" = true := by
  intro p x
  refine ⟨?_, by decide, by decide, by decide⟩
  unfold Result.subcheckSucceeded
  cases h : lookupCheck p.Checks x with
  | none => simp
  | some c => simp [h]

/-- Modelled from the spec: MTASTSResult, the optional policy sub-object
of a DomainResult. Its full type is defined outside the embedded source
files; only its Mode field (expected values enforce / testing / other)
is consulted by the aggregation sink. -/
structure MTASTSResult where
  Mode : String

/-- Modelled from the spec: DomainResult, the unit of work product of the
pipeline. Its full type is defined outside the embedded source files; the
aggregation sink consults only the Domain name, the number of host-level
sub-results (elements modelled as opaque Unit values) and the optional
MTASTSResult. -/
structure DomainResult where
  Domain : String
  HostnameResults : List Unit
  MTASTSResult : Option MTASTSResult

/-- AggregatedScan compiles aggregated stats across domains: a timestamp
(opaque here) and source label, the counters and the per-mode domain-name
lists. The Go int counters are only ever incremented by the sink, so they
are modelled as Nat. -/
structure AggregatedScan where
  Time : Nat
  Source : String
  Attempted : Nat
  WithMXs : Nat
  MTASTSTesting : Nat
  MTASTSTestingList : List String
  MTASTSEnforce : Nat
  MTASTSEnforceList : List String

/-- TotalMTASTS: the number of domains supporting testing or enforce mode. -/
def AggregatedScan.TotalMTASTS (a : AggregatedScan) : Nat :=
  a.MTASTSTesting + a.MTASTSEnforce

/-- PercentMTASTS: 0 when WithMXs is 0, else 100 * TotalMTASTS / WithMXs.
The Go float64 arithmetic is modelled as exact rational arithmetic; the
values the claims consult (0 and 100) are exactly representable either way. -/
def AggregatedScan.PercentMTASTS (a : AggregatedScan) : ℚ :=
  if a.WithMXs = 0 then 0
  else 100 * (a.TotalMTASTS : ℚ) / (a.WithMXs : ℚ)

/-- HandleDomain adds the result of a single domain scan to the
aggregated stats, mirroring checker/totals.go: increment Attempted (the
every-1000 progress log is observational only and not modelled); stop
when there are no hostname results; else increment WithMXs and, when a
policy result is present, branch on its Mode (the Go switch has exactly
the enforce and testing cases and no default). -/
def AggregatedScan.HandleDomain (a : AggregatedScan) (r : DomainResult) : AggregatedScan :=
  let a₁ : AggregatedScan := { a with Attempted := a.Attempted + 1 }
  if r.HostnameResults.length = 0 then a₁
  else
    let a₂ : AggregatedScan := { a₁ with WithMXs := a₁.WithMXs + 1 }
    match r.MTASTSResult with
    | some m =>
        if m.Mode = "enforce" then
          { a₂ with MTASTSEnforce := a₂.MTASTSEnforce + 1,
                    MTASTSEnforceList := a₂.MTASTSEnforceList ++ [r.Domain] }
        else if m.Mode = "testing" then
          { a₂ with MTASTSTesting := a₂.MTASTSTesting + 1,
                    MTASTSTestingList := a₂.MTASTSTestingList ++ [r.Domain] }
        else a₂
    | none => a₂

/-- A fresh, zero-initialized AggregatedScan. -/
def emptyAggregatedScan : AggregatedScan :=
  ⟨0, "", 0, 0, 0, [], 0, []⟩

/-- A DomainResult with no host-level sub-results. -/
def exNoHost : DomainResult := ⟨"n.example", [], none⟩

/-- A DomainResult with one host and an enforce-mode policy. -/
def exEnforce : DomainResult := ⟨"e.example", [()], some ⟨"enforce"⟩⟩

/-- A DomainResult with one host and a testing-mode policy. -/
def exTesting : DomainResult := ⟨"t.example", [()], some ⟨"testing"⟩⟩

/-- The fresh AggregatedScan fed the three example results in order. -/
def exThree : AggregatedScan :=
  ((emptyAggregatedScan.HandleDomain exNoHost).HandleDomain
      exEnforce).HandleDomain exTesting

theorem exThree_eq : exThree = ⟨0, "", 3, 2, 1, ["t.example"], 1, ["e.example"]⟩ := by
  rfl

/-- C4: HandleDomain increments Attempted by 1; a result with zero
host-level sub-results changes nothing else; otherwise WithMXs is
incremented and, when a policy result is present, an enforce Mode bumps
MTASTSEnforce and its list, a testing Mode bumps MTASTSTesting and its
list, and any other or absent Mode changes neither bucket. A fresh
AggregatedScan fed a no-host result, an enforce result and a testing
result ends with Attempted 3, WithMXs 2, MTASTSEnforce 1, MTASTSTesting 1,
each list holding exactly its one domain, and PercentMTASTS 100. -/
theorem handleDomain_spec : ∀ (a : AggregatedScan) (r : DomainResult) (m : MTASTSResult),
    (a.HandleDomain r).Attempted = a.Attempted + 1
    ∧ (r.HostnameResults.length = 0 →
        a.HandleDomain r = { a with Attempted := a.Attempted + 1 })
    ∧ (r.HostnameResults.length ≠ 0 →
        (a.HandleDomain r).WithMXs = a.WithMXs + 1)
    ∧ (r.HostnameResults.length ≠ 0 → r.MTASTSResult = some m →
        m.Mode = "enforce" →
        a.HandleDomain r =
          { a with
              Attempted := a.Attempted + 1,
              WithMXs := a.WithMXs + 1,
              MTASTSEnforce := a.MTASTSEnforce + 1,
              MTASTSEnforceList := a.MTASTSEnforceList ++ [r.Domain] })
    ∧ (r.HostnameResults.length ≠ 0 → r.MTASTSResult = some m →
        m.Mode = "testing" →
        a.HandleDomain r =
          { a with
              Attempted := a.Attempted + 1,
              WithMXs := a.WithMXs + 1,
              MTASTSTesting := a.MTASTSTesting + 1,
              MTASTSTestingList := a.MTASTSTestingList ++ [r.Domain] })
    ∧ (r.HostnameResults.length ≠ 0 → r.MTASTSResult = some m →
        m.Mode ≠ "enforce" → m.Mode ≠ "testing" →
        a.HandleDomain r =
          { a with Attempted := a.Attempted + 1, WithMXs := a.WithMXs + 1 })
    ∧ (r.HostnameResults.length ≠ 0 → r.MTASTSResult = none →
        a.HandleDomain r =
          { a with Attempted := a.Attempted + 1, WithMXs := a.WithMXs + 1 })
    ∧ exThree.Attempted = 3 ∧ exThree.WithMXs = 2
    ∧ exThree.MTASTSEnforce = 1 ∧ exThree.MTASTSTesting = 1
    ∧ exThree.MTASTSEnforceList = ["e.example"]
    ∧ exThree.MTASTSTestingList = ["t.example"]
    ∧ exThree.PercentMTASTS = 100 := by
  intro a r m
  refine ⟨?_, ?_, ?_, ?_, ?_, ?_, ?_, rfl, rfl, rfl, rfl, rfl, rfl, ?_⟩
  · unfold AggregatedScan.HandleDomain
    by_cases h0 : r.HostnameResults.length = 0
    · simp [h0]
    · simp only [h0, if_false]
      cases hm : r.MTASTSResult with
      | none => rfl
      | some mm => by_cases he : mm.Mode = "enforce" <;>
          by_cases ht : mm.Mode = "testing" <;> simp [he, ht]
  · intro h0
    simp [AggregatedScan.HandleDomain, h0]
  · intro h0
    unfold AggregatedScan.HandleDomain
    simp only [h0, if_false]
    cases hm : r.MTASTSResult with
    | none => rfl
    | some mm => by_cases he : mm.Mode = "enforce" <;>
        by_cases ht : mm.Mode = "testing" <;> simp [he, ht]
  · intro h0 hm he
    simp [AggregatedScan.HandleDomain, h0, hm, he]
  · intro h0 hm ht
    by_cases he : m.Mode = "enforce"
    · exact absurd (he.symm.trans ht) (by decide)
    · simp [AggregatedScan.HandleDomain, h0, hm, he, ht]
  · intro h0 hm he ht
    simp [AggregatedScan.HandleDomain, h0, hm, he, ht]
  · intro h0 hm
    simp [AggregatedScan.HandleDomain, h0, hm]
  · rw [exThree_eq]
    norm_num [AggregatedScan.PercentMTASTS, AggregatedScan.TotalMTASTS]

/-- C7: TotalMTASTS is the sum of the testing and enforce counters, and
PercentMTASTS is 0 when WithMXs is 0 (no division by zero, including on a
fresh AggregatedScan) and otherwise 100 * TotalMTASTS / WithMXs, a value
on the 0 to 100 scale rather than a 0 to 1 fraction. -/
theorem totalMTASTS_percentMTASTS_spec : ∀ (a : AggregatedScan),
    a.TotalMTASTS = a.MTASTSTesting + a.MTASTSEnforce
    ∧ (a.WithMXs = 0 → a.PercentMTASTS = 0)
    ∧ (a.WithMXs ≠ 0 →
        a.PercentMTASTS = 100 * (a.TotalMTASTS : ℚ) / (a.WithMXs : ℚ))
    ∧ emptyAggregatedScan.PercentMTASTS = 0 := by
  intro a
  refine ⟨rfl, ?_, ?_, rfl⟩
  · intro h
    simp [AggregatedScan.PercentMTASTS, h]
  · intro h
    simp [AggregatedScan.PercentMTASTS, h]

/-- The reachable-state invariant of the aggregation sink: each mode list
is as long as its counter, and the bucket counters never exceed WithMXs,
which never exceeds Attempted. -/
def InvAgg (a : AggregatedScan) : Prop :=
  a.MTASTSEnforceList.length = a.MTASTSEnforce
  ∧ a.MTASTSTestingList.length = a.MTASTSTesting
  ∧ a.MTASTSEnforce + a.MTASTSTesting ≤ a.WithMXs
  ∧ a.WithMXs ≤ a.Attempted

theorem handleDomain_preserves_inv (a : AggregatedScan) (r : DomainResult)
    (hInv : InvAgg a) : InvAgg (a.HandleDomain r) := by
  obtain ⟨h1, h2, h3, h4⟩ := hInv
  unfold AggregatedScan.HandleDomain InvAgg
  by_cases h0 : r.HostnameResults.length = 0
  · simp only [h0, if_true]
    exact ⟨h1, h2, h3, by omega⟩
  · simp only [h0, if_false]
    cases hm : r.MTASTSResult with
    | none =>
        refine ⟨h1, h2, ?_, ?_⟩
        · show a.MTASTSEnforce + a.MTASTSTesting ≤ a.WithMXs + 1
          omega
        · show a.WithMXs + 1 ≤ a.Attempted + 1
          omega
    | some m =>
        by_cases he : m.Mode = "enforce"
        · simp only [he, if_true]
          refine ⟨?_, h2, by omega, by omega⟩
          simp [h1]
        · simp only [he, if_false]
          by_cases ht : m.Mode = "testing"
          · simp only [ht, if_true]
            refine ⟨h1, ?_, by omega, by omega⟩
            simp [h2]
          · simp only [ht, if_false]
            exact ⟨h1, h2, by omega, by omega⟩

theorem foldl_handleDomain_inv (rs : List DomainResult) (a : AggregatedScan)
    (hInv : InvAgg a) : InvAgg (rs.foldl AggregatedScan.HandleDomain a) := by
  induction rs generalizing a with
  | nil => exact hInv
  | cons r rest ih =>
      exact ih _ (handleDomain_preserves_inv a r hInv)

theorem percentMTASTS_le_100_of_inv (a : AggregatedScan)
    (h : a.TotalMTASTS ≤ a.WithMXs) : a.PercentMTASTS ≤ 100 := by
  unfold AggregatedScan.PercentMTASTS
  by_cases h0 : a.WithMXs = 0
  · simp [h0]
  · simp only [h0, if_false]
    have hw : (0 : ℚ) < (a.WithMXs : ℚ) := by
      exact_mod_cast Nat.pos_of_ne_zero h0
    rw [div_le_iff₀ hw]
    have hT : (a.TotalMTASTS : ℚ) ≤ (a.WithMXs : ℚ) := by exact_mod_cast h
    linarith

/-- C10: starting from a zero-initialized AggregatedScan, after any
finite sequence of HandleDomain calls each mode list is exactly as long
as its counter, MTASTSEnforce + MTASTSTesting is at most WithMXs, WithMXs
is at most Attempted, and PercentMTASTS never exceeds 100. -/
theorem aggregatedScan_reachable_invariant : ∀ (rs : List DomainResult),
    (rs.foldl AggregatedScan.HandleDomain emptyAggregatedScan).MTASTSEnforceList.length
      = (rs.foldl AggregatedScan.HandleDomain emptyAggregatedScan).MTASTSEnforce
    ∧ (rs.foldl AggregatedScan.HandleDomain emptyAggregatedScan).MTASTSTestingList.length
      = (rs.foldl AggregatedScan.HandleDomain emptyAggregatedScan).MTASTSTesting
    ∧ (rs.foldl AggregatedScan.HandleDomain emptyAggregatedScan).MTASTSEnforce
        + (rs.foldl AggregatedScan.HandleDomain emptyAggregatedScan).MTASTSTesting
      ≤ (rs.foldl AggregatedScan.HandleDomain emptyAggregatedScan).WithMXs
    ∧ (rs.foldl AggregatedScan.HandleDomain emptyAggregatedScan).WithMXs
      ≤ (rs.foldl AggregatedScan.HandleDomain emptyAggregatedScan).Attempted
    ∧ (rs.foldl AggregatedScan.HandleDomain emptyAggregatedScan).PercentMTASTS ≤ 100 := by
  intro rs
  have hEmpty : InvAgg emptyAggregatedScan := ⟨rfl, rfl, le_refl 0, le_refl 0⟩
  obtain ⟨h1, h2, h3, h4⟩ := foldl_handleDomain_inv rs emptyAggregatedScan hEmpty
  refine ⟨h1, h2, h3, h4, ?_⟩
  apply percentMTASTS_le_100_of_inv
  unfold AggregatedScan.TotalMTASTS
  omega

/-- One row of the producer loop in Checker.CheckCSV, which enqueues
data[domainColumn] whenever len(data) > 0 and skips the row otherwise.
The result some none is a skipped row, some (some s) an enqueued
identifier s, and none the out-of-range access data[domainColumn] (a Go
runtime panic) that happens when the row is nonempty but has at most
domainColumn fields. -/
def csvRowWork (domainColumn : Nat) (data : List String) : Option (Option String) :=
  if 0 < data.length then
    match data.get? domainColumn with
    | some s => some (some s)
    | none => none
  else some none

/-- C9 counterexample: with identifier column 1, the one-field row does
not have enough columns; the claim says such a row is skipped without
error, but the producer accesses data[1] out of range (a panic, modelled
as none), not a skip (some none). -/
theorem csvRowWork_short_row_not_skipped :
    ¬ (csvRowWork 1 ["a"] = some none) := by
  decide

/-- C9 amended: a zero-length row contributes nothing to the work queue
(it is skipped), and a row with more than domainColumn fields enqueues
the field at index domainColumn; but a nonempty row with at most
domainColumn fields is NOT skipped: the access data[domainColumn] is out
of range, a runtime panic rather than a silent skip. -/
theorem csvRowWork_spec : ∀ (domainColumn : Nat) (data : List String),
    (data.length = 0 → csvRowWork domainColumn data = some none)
    ∧ (domainColumn < data.length →
        csvRowWork domainColumn data = some (data.get? domainColumn))
    ∧ (0 < data.length → data.length ≤ domainColumn →
        csvRowWork domainColumn data = none) := by
  intro domainColumn data
  refine ⟨?_, ?_, ?_⟩
  · intro h
    simp [csvRowWork, h]
  · intro h
    have h0 : 0 < data.length := lt_of_le_of_lt (Nat.zero_le _) h
    unfold csvRowWork
    rw [if_pos h0]
    cases hg : data.get? domainColumn with
    | none =>
        rw [List.get?_eq_none] at hg
        omega
    | some s => rfl
  · intro h0 hle
    unfold csvRowWork
    rw [if_pos h0]
    have hg : data.get? domainColumn = none := List.get?_eq_none.mpr hle
    rw [hg]
